import Mathlib

/-!
Verification of the retrieval core of the GIKI Prospectus Q&A chatbot
(Python sources under `src/`): the hash-based embedder
(`src/embeddings/embedding_manager.py`), the in-memory vector store
(`src/vectorstore/vector_store.py`), the text chunker
(`src/text_chunker.py`) and the RAG orchestrator
(`src/rag/rag_engine.py`).

Modelling conventions:
* Python floats are idealised as exact numbers: vector components are
  rationals (`ℚ`), similarity scores (which involve a square root) are
  reals (`ℝ`).
* The md5 hexdigest of a string is supplied as an oracle
  `String → Option (List ℕ)` giving the character codes of the digest,
  `none` standing for the `except` path of `get_single_embedding`
  (an internal failure while hashing).  Real md5 always yields 32 codes.
* External collaborators (tiktoken token counting, the langchain text
  splitter, the LLM client) are parameters of the functions that call
  them; a `none` result of the generator stands for a raised exception.
-/

namespace Giki

/-- An embedding vector, as stored and compared by the Python code. -/
abbrev Vec := List ℚ

/-- `np.dot` on two 1-D arrays of equal length (the only way the code
uses it): the sum of componentwise products. -/
def dot (v1 v2 : Vec) : ℚ := (List.zipWith (· * ·) v1 v2).sum

/-- The squared Euclidean norm `‖v‖² = Σ v i ^ 2`; the Python code
compares `np.linalg.norm v == 0`, equivalent to `normSq v = 0`. -/
def normSq (v : Vec) : ℚ := dot v v

/-- `SimpleEmbeddingManager.compute_similarity` /
`SimpleVectorStore._cosine_similarity` (identical bodies):
`dot(v1,v2) / (‖v1‖ * ‖v2‖)`, returning `0.0` when either norm is zero.
`np.dot` raises on 1-D arrays of different lengths and the surrounding
`except` then returns `0.0`; the first guard models that. -/
noncomputable def cosine_similarity (v1 v2 : Vec) : ℝ :=
  if v1.length ≠ v2.length then 0
  else if normSq v1 = 0 ∨ normSq v2 = 0 then 0
  else (dot v1 v2 : ℝ) / (Real.sqrt (normSq v1) * Real.sqrt (normSq v2))

/-- `SimpleEmbeddingManager._text_to_hash_vector`, after the text has
been hashed: `hash` is the list of character codes of the md5 hexdigest.
Position `i < dim` receives `ord(hash[i]) / 255` when `i < len(hash)`
and `(ord(hash[i % len(hash)]) + i) % 255 / 255` otherwise.
When `hash = []` the Python code raises `ZeroDivisionError` for
`dim > 0` and the caller returns `np.zeros(dim)`; the `else 0` branch
makes this definition agree with that outcome componentwise. -/
def hashVector (hash : List ℕ) (dim : ℕ) : Vec :=
  (List.range dim).map (fun i =>
    if h : i < hash.length then ((hash.get ⟨i, h⟩ : ℕ) : ℚ) / 255
    else if hpos : 0 < hash.length then
      (((hash.get ⟨i % hash.length, Nat.mod_lt i hpos⟩ + i) % 255 : ℕ) : ℚ) / 255
    else 0)

/-- `SimpleEmbeddingManager` (src/embeddings/embedding_manager.py):
the embedding dimension fixed at construction (default 384) and the
md5 hexdigest oracle (see the module docstring above). -/
structure SimpleEmbeddingManager where
  embedding_dim : ℕ := 384
  md5 : String → Option (List ℕ)

namespace SimpleEmbeddingManager

/-- `get_single_embedding`: hash the text into a vector; on an internal
failure (`md5 text = none`) return `np.zeros(embedding_dim)`. -/
def get_single_embedding (m : SimpleEmbeddingManager) (text : String) : Vec :=
  match m.md5 text with
  | some h => hashVector h m.embedding_dim
  | none => List.replicate m.embedding_dim 0

/-- `get_embeddings`: one embedding per input text, in order. -/
def get_embeddings (m : SimpleEmbeddingManager) (texts : List String) : List Vec :=
  texts.map (fun t => m.get_single_embedding t)

/-- `get_embedding_dimension`. -/
def get_embedding_dimension (m : SimpleEmbeddingManager) : ℕ :=
  m.embedding_dim

end SimpleEmbeddingManager

/-- The embedding always has exactly `embedding_dim` components. -/
theorem length_get_single_embedding (m : SimpleEmbeddingManager) (t : String) :
    (m.get_single_embedding t).length = m.embedding_dim := by
  unfold SimpleEmbeddingManager.get_single_embedding
  cases m.md5 t with
  | some h => simp [hashVector]
  | none => simp

/-! ## Chunker (src/text_chunker.py) -/

/-- A page record produced by the extraction collaborator. -/
structure PageRecord where
  file_name : String
  page_number : ℕ
  text : String
deriving DecidableEq

/-- The metadata dict attached to each chunk by
`TextChunker.chunk_document_pages`. -/
structure ChunkMeta where
  file_name : String
  page_number : ℕ
  chunk_index : ℕ
  total_chunks : ℕ
  chunk_size : ℕ
  token_count : ℕ
deriving DecidableEq, Inhabited

/-- A chunk: stripped content plus metadata. -/
structure Chunk where
  content : String
  metadata : ChunkMeta
deriving DecidableEq, Inhabited

/-- Python's `str.strip()`: remove leading and trailing whitespace. -/
def pyStrip (s : String) : String :=
  ⟨((s.data.dropWhile Char.isWhitespace).reverse.dropWhile Char.isWhitespace).reverse⟩

/-- `TextChunker.chunk_document_pages`.  `split` is the external
langchain `RecursiveCharacterTextSplitter.split_text` and `countTokens`
the tiktoken-based `_count_tokens`, both supplied as parameters.  For
each page, the raw splitter output is enumerated; a chunk is emitted
only when its stripped text is non-empty, carrying the enumeration
index as `chunk_index` and the raw splitter count as `total_chunks`. -/
def chunk_document_pages (split : String → List String)
    (countTokens : String → ℕ) (pages : List PageRecord) : List Chunk :=
  pages.flatMap (fun page =>
    let page_chunks := split page.text
    page_chunks.enum.filterMap (fun ic =>
      if pyStrip ic.2 = "" then none
      else some { content := pyStrip ic.2
                  metadata :=
                    { file_name := page.file_name
                      page_number := page.page_number
                      chunk_index := ic.1
                      total_chunks := page_chunks.length
                      chunk_size := ic.2.length
                      token_count := countTokens ic.2 } }))

/-! ## Vector store (src/vectorstore/vector_store.py) -/

/-- `SimpleVectorStore`: three parallel in-memory lists plus the
on-disk pickle (`none` when `vector_store.pkl` does not exist). -/
structure SimpleVectorStore where
  documents : List String
  embeddings : List Vec
  metadata : List ChunkMeta
  disk : Option (List String × List Vec × List ChunkMeta)
deriving DecidableEq

/-- An encoded chunk as consumed by `add_documents`: a Python dict in
which any of the three keys may be missing (`none`), in which case the
subscript access raises `KeyError`. `batch_encode_with_metadata` always
produces all three keys, but `add_documents` accepts any dicts. -/
structure EncodedChunk where
  content : Option String
  embedding : Option Vec
  metadata : Option ChunkMeta
deriving DecidableEq

namespace SimpleVectorStore

/-- `_save_data`: pickle the three lists to disk.  `saveOk = false`
models a raised I/O error, which the method catches and merely logs:
the disk is left unchanged and no error is reported to the caller. -/
def _save_data (saveOk : Bool) (s : SimpleVectorStore) : SimpleVectorStore :=
  if saveOk then
    { s with disk := some (s.documents, s.embeddings, s.metadata) }
  else s

/-- The `for chunk in encoded_chunks` loop of `add_documents`: appends
`chunk['content']`, then `chunk['embedding']`, then `chunk['metadata']`.
A missing key raises `KeyError` at that point, leaving every append
performed so far in place (`false` = an exception escaped the loop). -/
def addLoop (s : SimpleVectorStore) : List EncodedChunk → SimpleVectorStore × Bool
  | [] => (s, true)
  | c :: rest =>
    match c.content with
    | none => (s, false)
    | some content =>
      let s1 := { s with documents := s.documents ++ [content] }
      match c.embedding with
      | none => (s1, false)
      | some emb =>
        let s2 := { s1 with embeddings := s1.embeddings ++ [emb] }
        match c.metadata with
        | none => (s2, false)
        | some md =>
          addLoop { s2 with metadata := s2.metadata ++ [md] } rest

/-- `add_documents`: run the append loop, then `_save_data` and return
`True`; any exception inside the loop is caught and `False` is
returned, with the partial appends left visible. -/
def add_documents (saveOk : Bool) (s : SimpleVectorStore)
    (encoded_chunks : List EncodedChunk) : SimpleVectorStore × Bool :=
  match addLoop s encoded_chunks with
  | (s', true) => (s'._save_data saveOk, true)
  | (s', false) => (s', false)

end SimpleVectorStore

/-- A search result dict as built by `search_similar`. -/
structure SearchResult where
  content : String
  metadata : ChunkMeta
  similarity_score : ℝ

/-- The order in which Python's `similarities.sort(reverse=True)`
arranges the `(similarity, index)` tuples: `a` precedes (or equals) `b`
iff `a` is lexicographically greater or equal — higher score first and,
among equal scores, higher index first. -/
def tupleGE {α : Type} [LinearOrder α] (a b : α × ℕ) : Prop :=
  b.1 < a.1 ∨ (a.1 = b.1 ∧ b.2 ≤ a.2)

instance {α : Type} [LinearOrder α] : DecidableRel (@tupleGE α _) := fun a b => by
  unfold tupleGE; infer_instance

instance {α : Type} [LinearOrder α] : IsTotal (α × ℕ) tupleGE where
  total a b := by
    unfold tupleGE
    rcases lt_trichotomy a.1 b.1 with h | h | h
    · exact Or.inr (Or.inl h)
    · rcases Nat.le_total b.2 a.2 with h2 | h2
      · exact Or.inl (Or.inr ⟨h, h2⟩)
      · exact Or.inr (Or.inr ⟨h.symm, h2⟩)
    · exact Or.inl (Or.inl h)

instance {α : Type} [LinearOrder α] : IsTrans (α × ℕ) tupleGE where
  trans a b c hab hbc := by
    unfold tupleGE at *
    rcases hab with h1 | ⟨h1, h1'⟩
    · rcases hbc with h2 | ⟨h2, _⟩
      · exact Or.inl (h2.trans h1)
      · exact Or.inl (h2 ▸ h1)
    · rcases hbc with h2 | ⟨h2, h2'⟩
      · exact Or.inl (h1 ▸ h2)
      · exact Or.inr ⟨h1.trans h2, h2'.trans h1'⟩

namespace SimpleVectorStore

/-- `search_similar`: score every stored embedding against the query
with `_cosine_similarity`, sort the `(similarity, index)` tuples with
`sort(reverse=True)`, take the first `top_k` and build result dicts.
The final guard models the `except` wrapper: `self.metadata[idx]` (or
`self.documents[idx]`) raises `IndexError` when the parallel lists are
shorter than `self.embeddings`, and the whole call then returns `[]`. -/
noncomputable def search_similar (s : SimpleVectorStore)
    (query_embedding : Vec) (top_k : ℕ := 3) : List SearchResult :=
  if s.embeddings.isEmpty then []
  else
    let similarities :=
      s.embeddings.enum.map (fun ie => (cosine_similarity query_embedding ie.2, ie.1))
    let top := (List.insertionSort tupleGE similarities).take top_k
    if top.all (fun p => decide (p.2 < s.documents.length) &&
        decide (p.2 < s.metadata.length)) then
      top.map (fun p =>
        { content := s.documents.getD p.2 ""
          metadata := s.metadata.getD p.2 default
          similarity_score := p.1 })
    else []

end SimpleVectorStore

/-! ## Configuration (src/config.py) -/

/-- `Config.TOP_K_RETRIEVAL = int(os.getenv("TOP_K_RETRIEVAL", "3"))`:
the configured retrieval depth, defaulting to 3 when the environment
variable is unset. -/
def TOP_K_RETRIEVAL (env : Option ℕ) : ℕ := env.getD 3

/-! ## RAG orchestrator (src/rag/rag_engine.py) -/

/-- A source attribution entry of a successful query outcome. -/
structure Source where
  file_name : String
  page_number : ℕ
  similarity_score : ℝ

/-- The dict returned by `RAGEngine.ask_question`. -/
structure QueryOutcome where
  success : Bool
  answer : String
  sources : List Source
  confidence : ℝ
  error : Option String := none
  context_length : Option ℕ := none
  sources_count : Option ℕ := none

/-- The fixed insufficient-information answer of `ask_question`. -/
def insufficientInfoAnswer : String :=
  "I don't have enough information from the uploaded documents to answer this question. Please make sure relevant GIKI documents are uploaded."

/-- The user-safe fallback answer of the `except` branch of
`ask_question`. -/
def errorFallbackAnswer : String :=
  "Sorry, I encountered an error while processing your question. Please try again."

/-- `RAGEngine.ask_question`.  `generate_response` is the external LLM
collaborator (`.error e` models a raised exception with message `e`,
caught by the surrounding `except`).  The question is embedded; the
code raises only when the embedding has length 0; otherwise the store
is searched with the hard-coded default `top_k = 3`; no results yield
the fixed insufficient-information success outcome; otherwise contexts
and sources are assembled, the generator is called, and the confidence
is the mean similarity score of the results. -/
noncomputable def ask_question (m : SimpleEmbeddingManager)
    (s : SimpleVectorStore)
    (generate_response : String → String → String → Except String String)
    (question : String) (language : String := "en") : QueryOutcome :=
  let question_embedding := m.get_single_embedding question
  if question_embedding.length = 0 then
    { success := false
      error := some "Failed to generate question embedding"
      answer := errorFallbackAnswer
      sources := []
      confidence := 0 }
  else
    match s.search_similar question_embedding with
    | [] =>
      { success := true
        answer := insufficientInfoAnswer
        sources := []
        confidence := 0 }
    | r :: rs =>
      let search_results := r :: rs
      let context := String.intercalate "\n\n" (search_results.map (fun x => x.content))
      let sources := search_results.map (fun res =>
        ({ file_name := res.metadata.file_name
           page_number := res.metadata.page_number
           similarity_score := res.similarity_score } : Source))
      match generate_response question context language with
      | .error e =>
        { success := false
          error := some e
          answer := errorFallbackAnswer
          sources := []
          confidence := 0 }
      | .ok answer =>
        { success := true
          answer := answer
          sources := sources
          confidence := (search_results.map (fun x => x.similarity_score)).sum /
            (search_results.length : ℝ)
          context_length := some context.length
          sources_count := some sources.length }

/-! ## Basic facts about the vector arithmetic -/

theorem dot_nil_left (w : Vec) : dot [] w = 0 := by
  cases w <;> simp [dot]

theorem dot_nil_right (v : Vec) : dot v [] = 0 := by
  cases v <;> simp [dot]

theorem dot_cons (a b : ℚ) (v w : Vec) :
    dot (a :: v) (b :: w) = a * b + dot v w := by
  simp [dot]

theorem normSq_nonneg (v : Vec) : 0 ≤ normSq v := by
  induction v with
  | nil => simp [normSq, dot]
  | cons a v ih =>
    have h := mul_self_nonneg a
    simp only [normSq, dot_cons] at *
    nlinarith

theorem dot_nonneg (v w : Vec) (hv : ∀ x ∈ v, 0 ≤ x) (hw : ∀ x ∈ w, 0 ≤ x) :
    0 ≤ dot v w := by
  induction v generalizing w with
  | nil => simp [dot_nil_left]
  | cons a v ih =>
    cases w with
    | nil => simp [dot_nil_right]
    | cons b w =>
      rw [dot_cons]
      have ha : 0 ≤ a := hv a (by simp)
      have hb : 0 ≤ b := hw b (by simp)
      have hrest := ih w (fun x hx => hv x (List.mem_cons_of_mem a hx))
        (fun x hx => hw x (List.mem_cons_of_mem b hx))
      have := mul_nonneg ha hb
      linarith

theorem normSq_replicate_zero (n : ℕ) : normSq (List.replicate n (0 : ℚ)) = 0 := by
  induction n with
  | zero => simp [normSq, dot]
  | succ k ih => simpa [List.replicate_succ, normSq, dot_cons] using ih

/-- Cauchy–Schwarz for the list dot product. -/
theorem dot_sq_le_normSq_mul_normSq (v w : Vec) :
    dot v w ^ 2 ≤ normSq v * normSq w := by
  induction v generalizing w with
  | nil => simp [dot_nil_left, normSq, dot]
  | cons a v ih =>
    cases w with
    | nil =>
      have hz : normSq ([] : Vec) = 0 := by simp [normSq, dot]
      rw [dot_nil_right, hz, mul_zero]
      simp
    | cons b w =>
      have hvv := normSq_nonneg v
      have hww := normSq_nonneg w
      have hcs := ih w
      simp only [normSq, dot_cons] at *
      rcases eq_or_lt_of_le hww with hnw | hnw
      · have hd : dot v w = 0 := by nlinarith [sq_nonneg (dot v w)]
        rw [hd, ← hnw]
        nlinarith [mul_nonneg hvv (sq_nonneg b)]
      · have hG : (0 : ℚ) ≤ dot v v * dot w w - dot v w ^ 2 := by linarith
        nlinarith [sq_nonneg (a * dot w w - b * dot v w),
          mul_nonneg (sq_nonneg b) hG, mul_nonneg (le_of_lt hnw) hG, hnw]

/-! ## Claim C6 -/

/-- Claim C6: for every input text the embedder returns a vector of
exactly the dimension reported by `get_embedding_dimension` (fixed at
construction, default 384), and embedding is deterministic: two calls
on the same text yield the same vector. -/
theorem embed_dimension_and_deterministic :
    (∀ (m : SimpleEmbeddingManager) (text : String),
      (m.get_single_embedding text).length = m.get_embedding_dimension ∧
      m.get_single_embedding text = m.get_single_embedding text) ∧
    (∀ f : String → Option (List ℕ),
      ({ md5 := f } : SimpleEmbeddingManager).embedding_dim = 384) := by
  refine ⟨fun m text => ⟨?_, rfl⟩, fun f => rfl⟩
  exact length_get_single_embedding m text

/-! ## Claim C8 -/

/-- Claim C8: the batch embedding operation is total over its input
length: it returns exactly one vector per input text, in input order,
and an internal failure on a single text (`md5 = none`) yields the
zero vector for that text instead of aborting the batch. -/
theorem get_embeddings_total (m : SimpleEmbeddingManager)
    (texts : List String) (i : ℕ) (hi : i < texts.length) :
    (m.get_embeddings texts).length = texts.length ∧
    (m.get_embeddings texts).getD i [] =
      m.get_single_embedding (texts.getD i "") ∧
    (m.md5 (texts.getD i "") = none →
      (m.get_embeddings texts).getD i [] =
        List.replicate m.embedding_dim 0) := by
  have hlen : (m.get_embeddings texts).length = texts.length := by
    simp [SimpleEmbeddingManager.get_embeddings]
  have hget : (m.get_embeddings texts).getD i [] =
      m.get_single_embedding (texts.getD i "") := by
    unfold SimpleEmbeddingManager.get_embeddings
    rw [List.getD_eq_getElem?_getD, List.getElem?_map,
      List.getElem?_eq_getElem hi, List.getD_eq_getElem?_getD,
      List.getElem?_eq_getElem hi]
    rfl
  refine ⟨hlen, hget, fun hfail => ?_⟩
  rw [hget]
  unfold SimpleEmbeddingManager.get_single_embedding
  rw [hfail]

/-- Witness for C8 at a concrete input: a batch of one text whose
hashing fails yields exactly one embedding, the zero vector. -/
theorem get_embeddings_total_witness :
    (((⟨2, fun _ => none⟩ : SimpleEmbeddingManager).get_embeddings
        ["a"]).length = (["a"] : List String).length ∧
      ((⟨2, fun _ => none⟩ : SimpleEmbeddingManager).get_embeddings
        ["a"]).getD 0 [] =
        (⟨2, fun _ => none⟩ : SimpleEmbeddingManager).get_single_embedding
          ((["a"] : List String).getD 0 "") ∧
      ((⟨2, fun _ => none⟩ : SimpleEmbeddingManager).md5
          ((["a"] : List String).getD 0 "") = none →
        ((⟨2, fun _ => none⟩ : SimpleEmbeddingManager).get_embeddings
          ["a"]).getD 0 [] = List.replicate 2 0)) :=
  get_embeddings_total ⟨2, fun _ => none⟩ ["a"] 0 (by decide)

/-! ## Claim C7 -/

/-- Claim C7: the similarity function returns
`dot v1 v2 / (‖v1‖ * ‖v2‖)` except that it returns 0 when either vector
has zero norm (never failing); consequently `similarity v v = 1`
(exactly, in real arithmetic) for every nonzero `v` and
`similarity v 0 = 0`.  Vectors are compared within one embedding space,
so the two arguments have the same length. -/
theorem cosine_similarity_spec (v1 v2 v : Vec) (hlen : v1.length = v2.length) :
    ((normSq v1 = 0 ∨ normSq v2 = 0) → cosine_similarity v1 v2 = 0) ∧
    (¬(normSq v1 = 0 ∨ normSq v2 = 0) →
      cosine_similarity v1 v2 =
        (dot v1 v2 : ℝ) / (Real.sqrt (normSq v1) * Real.sqrt (normSq v2))) ∧
    (normSq v ≠ 0 → cosine_similarity v v = 1) ∧
    (∀ n : ℕ, cosine_similarity v (List.replicate n 0) = 0) := by
  refine ⟨fun hz => ?_, fun hnz => ?_, fun hv => ?_, fun n => ?_⟩
  · unfold cosine_similarity
    rw [if_neg (by simp [hlen]), if_pos hz]
  · unfold cosine_similarity
    rw [if_neg (by simp [hlen]), if_neg hnz]
  · unfold cosine_similarity
    rw [if_neg (by simp), if_neg (by simp [hv])]
    have hpos : (0 : ℝ) < (normSq v : ℝ) := by
      exact_mod_cast lt_of_le_of_ne (normSq_nonneg v) (Ne.symm hv)
    rw [Real.mul_self_sqrt hpos.le]
    exact div_self (by exact_mod_cast hv)
  · by_cases hl : v.length = n
    · unfold cosine_similarity
      rw [if_neg (by simp [hl]), if_pos (Or.inr (normSq_replicate_zero n))]
    · unfold cosine_similarity
      rw [if_pos (by simp [hl])]

/-- Witness for C7 at concrete vectors `v1 = v = [1]`, `v2 = [0]`. -/
theorem cosine_similarity_spec_witness :
    ((normSq [1] = 0 ∨ normSq [0] = 0) → cosine_similarity [1] [0] = 0) ∧
    (¬(normSq [1] = 0 ∨ normSq [0] = 0) →
      cosine_similarity [1] [0] =
        (dot [1] [0] : ℝ) / (Real.sqrt (normSq [1]) * Real.sqrt (normSq [0]))) ∧
    (normSq [1] ≠ 0 → cosine_similarity [1] [1] = 1) ∧
    (∀ n : ℕ, cosine_similarity [1] (List.replicate n 0) = 0) :=
  cosine_similarity_spec [1] [0] [1] (by decide)

/-! ## Claim C5 -/

/-- Claim C5: a query against an empty index returns a success outcome
(not a failure) with the fixed insufficient-information answer, no
sources, and confidence exactly 0.  (`embedding_dim ≠ 0` reflects the
constructed manager: `RAGEngine` builds it with the default 384.) -/
theorem ask_question_empty_index (m : SimpleEmbeddingManager)
    (hdim : m.embedding_dim ≠ 0)
    (disk : Option (List String × List Vec × List ChunkMeta))
    (gen : String → String → String → Except String String)
    (question language : String) :
    ask_question m ⟨[], [], [], disk⟩ gen question language =
      { success := true
        answer := insufficientInfoAnswer
        sources := []
        confidence := 0 } := by
  unfold ask_question
  rw [if_neg (by rw [length_get_single_embedding]; exact hdim)]
  rw [show SimpleVectorStore.search_similar ⟨[], [], [], disk⟩
      (m.get_single_embedding question) 3 = [] from by
    simp [SimpleVectorStore.search_similar]]

/-- Witness for C5 at a concrete manager, store and generator. -/
theorem ask_question_empty_index_witness :
    ask_question ⟨1, fun _ => some [48]⟩ ⟨[], [], [], none⟩
        (fun _ _ _ => .ok "x") "What is GIKI?" "en" =
      { success := true
        answer := insufficientInfoAnswer
        sources := []
        confidence := 0 } :=
  ask_question_empty_index ⟨1, fun _ => some [48]⟩ (by decide) none
    (fun _ _ _ => .ok "x") "What is GIKI?" "en"

/-! ## Claim C10 -/

/-- Every search returns at most `top_k` results. -/
theorem length_search_similar_le (s : SimpleVectorStore) (q : Vec) (k : ℕ) :
    (s.search_similar q k).length ≤ k := by
  simp only [SimpleVectorStore.search_similar]
  split
  · simp
  · split
    · simp only [List.length_map, List.length_take]
      exact min_le_left k _
    · simp

/-- Claim C10: the public ask operation retrieves with the hard-coded
default `top_k = 3` of `search_similar` and therefore returns at most 3
sources, regardless of the configured `TOP_K_RETRIEVAL` value (`envK`
ranges over every possible environment setting and does not influence
the bound); `ask_question` exposes no `top_k` parameter. -/
theorem ask_question_at_most_three_sources (envK : Option ℕ)
    (m : SimpleEmbeddingManager) (s : SimpleVectorStore)
    (gen : String → String → String → Except String String)
    (question language : String) :
    (ask_question m s gen question language).sources.length ≤ 3 := by
  simp only [ask_question]
  split
  · simp
  · split
    · simp
    · rename_i r rs heq
      split
      · simp
      · have h3 := length_search_similar_le s (m.get_single_embedding question) 3
        rw [heq] at h3
        simp only [List.map_cons, List.length_cons, List.length_map]
        simpa using h3

/-! ## Claim C4 -/

/-- Counterexample to claim C4: a page whose splitter output is
`[" ", "alpha"]` (a whitespace-only chunk followed by a real one).  The
whitespace chunk is dropped, but the emitted chunk carries
`chunk_index = 1` and `total_chunks = 2` — the numbering counts the
dropped chunk, whereas the claim demands `chunk_index = 0` and
`total_chunks = 1` (numbering over emitted chunks only). -/
theorem chunk_numbering_counterexample :
    chunk_document_pages (fun _ => [" ", "alpha"]) String.length
        [⟨"a.txt", 1, "t"⟩] =
      [⟨"alpha", ⟨"a.txt", 1, 1, 2, 5, 5⟩⟩] ∧
    (chunk_document_pages (fun _ => [" ", "alpha"]) String.length
        [⟨"a.txt", 1, "t"⟩]).map (fun c => c.metadata.chunk_index) ≠ [0] ∧
    (chunk_document_pages (fun _ => [" ", "alpha"]) String.length
        [⟨"a.txt", 1, "t"⟩]).map (fun c => c.metadata.total_chunks) ≠ [1] := by
  refine ⟨by decide, by decide, by decide⟩

/-- Claim C4, amended: empty or whitespace-only chunks are dropped, but
`chunk_index` is the 0-based position of the chunk in the splitter's
raw output (counting dropped chunks) and `total_chunks` is the raw
splitter chunk count (also counting dropped chunks); emitted chunks
appear in raw order. -/
theorem chunk_numbering_amended (split : String → List String)
    (ct : String → ℕ) (p : PageRecord) :
    (∀ c ∈ chunk_document_pages split ct [p],
      c.metadata.total_chunks = (split p.text).length ∧
      c.metadata.chunk_index < (split p.text).length ∧
      c.content = pyStrip ((split p.text).getD c.metadata.chunk_index "") ∧
      c.content ≠ "") ∧
    (chunk_document_pages split ct [p]).Pairwise
      (fun c1 c2 => c1.metadata.chunk_index < c2.metadata.chunk_index) := by
  have hrw : chunk_document_pages split ct [p] =
      (split p.text).enum.filterMap (fun ic =>
        if pyStrip ic.2 = "" then none
        else some { content := pyStrip ic.2
                    metadata :=
                      { file_name := p.file_name
                        page_number := p.page_number
                        chunk_index := ic.1
                        total_chunks := (split p.text).length
                        chunk_size := ic.2.length
                        token_count := ct ic.2 } }) := by
    simp [chunk_document_pages]
  constructor
  · intro c hc
    rw [hrw] at hc
    rcases List.mem_filterMap.mp hc with ⟨ic, hmem, hf⟩
    have hidx : ic.1 < (split p.text).length ∧ (split p.text).getD ic.1 "" = ic.2 := by
      have h2 := List.mem_enum_iff_getElem?.mp hmem
      have hlt : ic.1 < (split p.text).length := (List.getElem?_eq_some.mp h2).1
      refine ⟨hlt, ?_⟩
      simp [List.getD_eq_getElem?_getD, h2]
    by_cases hstrip : pyStrip ic.2 = ""
    · rw [if_pos hstrip] at hf
      exact absurd hf (by simp)
    · rw [if_neg hstrip] at hf
      cases hf
      exact ⟨rfl, hidx.1, by rw [hidx.2], hstrip⟩
  · rw [hrw]
    have henum : ((split p.text).enum).Pairwise (fun a b => a.1 < b.1) := by
      have hr : ((split p.text).enum.map Prod.fst).Pairwise (· < ·) := by
        rw [List.enum_map_fst]
        exact List.pairwise_lt_range _
      exact (List.pairwise_map.mp hr)
    refine List.Pairwise.filterMap _ ?_ henum
    intro a b hab x hx y hy
    by_cases ha : pyStrip a.2 = ""
    · rw [if_pos ha] at hx; exact absurd hx (by simp)
    · by_cases hb : pyStrip b.2 = ""
      · rw [if_pos hb] at hy; exact absurd hy (by simp)
      · rw [if_neg ha] at hx
        rw [if_neg hb] at hy
        cases hx; cases hy
        simpa using hab

/-! ## Claim C1 -/

/-- Transport a pairwise relation along a pointwise implication that
may use membership of both elements. -/
theorem pairwise_imp_mem {α : Type} {R S : α → α → Prop} :
    ∀ {l : List α}, (∀ a ∈ l, ∀ b ∈ l, R a b → S a b) →
      l.Pairwise R → l.Pairwise S := by
  intro l hm h
  induction h with
  | nil => exact List.Pairwise.nil
  | @cons a l' hr hp ih =>
    refine List.Pairwise.cons (fun b hb => hm _ (by simp) b (by simp [hb]) (hr b hb)) (ih ?_)
    intro x hx y hy hxy
    exact hm x (by simp [hx]) y (by simp [hy]) hxy

/-- Every `(score, index)` pair scored by `search_similar` satisfies:
the index addresses a stored embedding and the score is the cosine
similarity of the query with that embedding. -/
theorem mem_similarities (s : SimpleVectorStore) (q : Vec)
    (p : ℝ × ℕ)
    (hp : p ∈ s.embeddings.enum.map
      (fun ie => (cosine_similarity q ie.2, ie.1))) :
    p.2 < s.embeddings.length ∧
      p = (cosine_similarity q (s.embeddings.getD p.2 []), p.2) := by
  rcases List.mem_map.mp hp with ⟨ie, hie, rfl⟩
  have h2 := List.mem_enum_iff_getElem?.mp hie
  have hlt : ie.1 < s.embeddings.length := (List.getElem?_eq_some.mp h2).1
  have hget : s.embeddings.getD ie.1 [] = ie.2 := by
    simp [List.getD_eq_getElem?_getD, h2]
  exact ⟨hlt, by rw [hget]⟩

/-- On a consistent store (parallel lists at least as long as the
embeddings list) with `top_k` at least the number of entries,
`search_similar` returns the fully sorted result list. -/
theorem search_similar_eq_sorted (s : SimpleVectorStore) (q : Vec) (k : ℕ)
    (hemp : s.embeddings ≠ [])
    (hdoc : s.embeddings.length ≤ s.documents.length)
    (hmeta : s.embeddings.length ≤ s.metadata.length)
    (hk : s.embeddings.length ≤ k) :
    s.search_similar q k =
      (List.insertionSort tupleGE (s.embeddings.enum.map
        (fun ie => (cosine_similarity q ie.2, ie.1)))).map (fun p =>
          { content := s.documents.getD p.2 ""
            metadata := s.metadata.getD p.2 default
            similarity_score := p.1 }) := by
  have hlen : (List.insertionSort tupleGE (s.embeddings.enum.map
      (fun ie => (cosine_similarity q ie.2, ie.1)))).length ≤ k := by
    rw [List.length_insertionSort, List.length_map, List.enum_length]
    exact hk
  simp only [SimpleVectorStore.search_similar]
  rw [if_neg (by simpa [List.isEmpty_iff] using hemp)]
  rw [List.take_of_length_le hlen]
  rw [if_pos ?hg]
  case hg =>
    rw [List.all_eq_true]
    intro p hp
    have hmem : p ∈ s.embeddings.enum.map
        (fun ie => (cosine_similarity q ie.2, ie.1)) :=
      (List.perm_insertionSort tupleGE _).mem_iff.mp hp
    have h := (mem_similarities s q p hmem).1
    simp only [Bool.and_eq_true, decide_eq_true_eq]
    exact ⟨lt_of_lt_of_le h hdoc, lt_of_lt_of_le h hmeta⟩

/-- Counterexample to claim C1 as stated: an index holding two entries
with identical embeddings `[1]`, queried with the zero vector (every
cosine similarity is then exactly 0, a full tie).  The claim demands
the earlier-inserted entry `"a"` first; the code returns the
later-inserted entry `"b"` first, because `sort(reverse=True)` on
`(similarity, index)` tuples orders equal similarities by descending
index. -/
theorem search_tiebreak_counterexample :
    SimpleVectorStore.search_similar
        ⟨["a", "b"], [[1], [1]], [⟨"f", 1, 0, 1, 1, 1⟩, ⟨"f", 1, 0, 1, 1, 1⟩], none⟩
        [0] 2 =
      [⟨"b", ⟨"f", 1, 0, 1, 1, 1⟩, 0⟩, ⟨"a", ⟨"f", 1, 0, 1, 1, 1⟩, 0⟩] ∧
    (SimpleVectorStore.search_similar
        ⟨["a", "b"], [[1], [1]], [⟨"f", 1, 0, 1, 1, 1⟩, ⟨"f", 1, 0, 1, 1, 1⟩], none⟩
        [0] 2).map (fun r => r.content) ≠ ["a", "b"] := by
  have hc : cosine_similarity [0] [1] = 0 := by
    simp [cosine_similarity, normSq, dot]
  have h1 : SimpleVectorStore.search_similar
      ⟨["a", "b"], [[1], [1]], [⟨"f", 1, 0, 1, 1, 1⟩, ⟨"f", 1, 0, 1, 1, 1⟩], none⟩
      [0] 2 =
      [⟨"b", ⟨"f", 1, 0, 1, 1, 1⟩, 0⟩, ⟨"a", ⟨"f", 1, 0, 1, 1, 1⟩, 0⟩] := by
    simp only [SimpleVectorStore.search_similar]
    rw [if_neg (by simp)]
    simp only [List.enum, List.enumFrom, List.map_cons, List.map_nil, hc]
    rw [show List.insertionSort tupleGE [((0 : ℝ), 0), ((0 : ℝ), 1)] =
        [((0 : ℝ), 1), ((0 : ℝ), 0)] from by
      simp only [List.insertionSort, List.orderedInsert]
      rw [if_neg (by simp [tupleGE])]]
    rw [if_pos (by decide)]
    simp
  exact ⟨h1, by rw [h1]; decide⟩

/-- Claim C1, amended: `search_similar` with `top_k ≥ N` on a
consistent index with `N` entries returns all `N` entries, ranked by
descending cosine similarity, and among entries with exactly equal
similarity the LATER-inserted entry (larger index) ranks first. -/
theorem search_similar_ranking (s : SimpleVectorStore) (q : Vec) (k : ℕ)
    (hdoc : s.embeddings.length ≤ s.documents.length)
    (hmeta : s.embeddings.length ≤ s.metadata.length)
    (hk : s.embeddings.length ≤ k) :
    ∃ idxs : List ℕ,
      idxs.Perm (List.range s.embeddings.length) ∧
      s.search_similar q k = idxs.map (fun i =>
        { content := s.documents.getD i ""
          metadata := s.metadata.getD i default
          similarity_score := cosine_similarity q (s.embeddings.getD i []) }) ∧
      idxs.Pairwise (fun i j =>
        cosine_similarity q (s.embeddings.getD j []) <
          cosine_similarity q (s.embeddings.getD i []) ∨
        (cosine_similarity q (s.embeddings.getD i []) =
          cosine_similarity q (s.embeddings.getD j []) ∧ j < i)) := by
  by_cases hemp : s.embeddings = []
  · refine ⟨[], by simp [hemp], ?_, by simp⟩
    simp [SimpleVectorStore.search_similar, hemp]
  · have hperm : (List.insertionSort tupleGE (s.embeddings.enum.map
        (fun ie => (cosine_similarity q ie.2, ie.1)))).Perm
        (s.embeddings.enum.map (fun ie => (cosine_similarity q ie.2, ie.1))) :=
      List.perm_insertionSort tupleGE _
    have hmem' : ∀ p ∈ List.insertionSort tupleGE (s.embeddings.enum.map
        (fun ie => (cosine_similarity q ie.2, ie.1))),
        p.2 < s.embeddings.length ∧
          p = (cosine_similarity q (s.embeddings.getD p.2 []), p.2) :=
      fun p hp => mem_similarities s q p (hperm.mem_iff.mp hp)
    have hsnd : (s.embeddings.enum.map
        (fun ie => (cosine_similarity q ie.2, ie.1))).map Prod.snd =
        List.range s.embeddings.length := by
      rw [List.map_map]
      have hfun : (Prod.snd ∘ fun ie : ℕ × Vec =>
          (cosine_similarity q ie.2, ie.1)) = Prod.fst := by
        funext ie
        rfl
      rw [hfun, List.enum_map_fst]
    refine ⟨(List.insertionSort tupleGE (s.embeddings.enum.map
      (fun ie => (cosine_similarity q ie.2, ie.1)))).map Prod.snd, ?_, ?_, ?_⟩
    · rw [← hsnd]
      exact hperm.map Prod.snd
    · rw [search_similar_eq_sorted s q k hemp hdoc hmeta hk, List.map_map]
      apply List.map_congr_left
      intro p hp
      have h1 : p.1 = cosine_similarity q (s.embeddings.getD p.2 []) :=
        congrArg Prod.fst ((hmem' p hp).2)
      simp only [Function.comp_apply]
      rw [h1]
    · have hsortpw : (List.insertionSort tupleGE (s.embeddings.enum.map
          (fun ie => (cosine_similarity q ie.2, ie.1)))).Pairwise tupleGE :=
        List.sorted_insertionSort tupleGE _
      have hnodup : ((List.insertionSort tupleGE (s.embeddings.enum.map
          (fun ie => (cosine_similarity q ie.2, ie.1)))).map Prod.snd).Nodup := by
        rw [(hperm.map Prod.snd).nodup_iff, hsnd]
        exact List.nodup_range _
      have hpwne : (List.insertionSort tupleGE (s.embeddings.enum.map
          (fun ie => (cosine_similarity q ie.2, ie.1)))).Pairwise
          (fun p p' => p.2 ≠ p'.2) := List.pairwise_map.mp hnodup
      rw [List.pairwise_map]
      refine pairwise_imp_mem ?_ (hsortpw.and hpwne)
      rintro a ha b hb ⟨hge, hne⟩
      have ha1 : a.1 = cosine_similarity q (s.embeddings.getD a.2 []) :=
        congrArg Prod.fst ((hmem' a ha).2)
      have hb1 : b.1 = cosine_similarity q (s.embeddings.getD b.2 []) :=
        congrArg Prod.fst ((hmem' b hb).2)
      rcases hge with hlt | ⟨heq, hle⟩
      · left
        rw [← ha1, ← hb1]
        exact hlt
      · right
        refine ⟨by rw [← ha1, ← hb1]; exact heq, ?_⟩
        exact lt_of_le_of_ne hle (fun h => hne h.symm)

/-- Witness for C1 (amended) on a one-entry store. -/
theorem search_similar_ranking_witness :
    ∃ idxs : List ℕ,
      idxs.Perm (List.range
        (⟨["a"], [[1]], [⟨"f", 1, 0, 1, 1, 1⟩], none⟩ :
          SimpleVectorStore).embeddings.length) ∧
      (⟨["a"], [[1]], [⟨"f", 1, 0, 1, 1, 1⟩], none⟩ :
          SimpleVectorStore).search_similar [1] 1 = idxs.map (fun i =>
        { content := (⟨["a"], [[1]], [⟨"f", 1, 0, 1, 1, 1⟩], none⟩ :
            SimpleVectorStore).documents.getD i ""
          metadata := (⟨["a"], [[1]], [⟨"f", 1, 0, 1, 1, 1⟩], none⟩ :
            SimpleVectorStore).metadata.getD i default
          similarity_score := cosine_similarity [1]
            ((⟨["a"], [[1]], [⟨"f", 1, 0, 1, 1, 1⟩], none⟩ :
              SimpleVectorStore).embeddings.getD i []) }) ∧
      idxs.Pairwise (fun i j =>
        cosine_similarity [1] ((⟨["a"], [[1]], [⟨"f", 1, 0, 1, 1, 1⟩], none⟩ :
            SimpleVectorStore).embeddings.getD j []) <
          cosine_similarity [1] ((⟨["a"], [[1]], [⟨"f", 1, 0, 1, 1, 1⟩], none⟩ :
            SimpleVectorStore).embeddings.getD i []) ∨
        (cosine_similarity [1] ((⟨["a"], [[1]], [⟨"f", 1, 0, 1, 1, 1⟩], none⟩ :
            SimpleVectorStore).embeddings.getD i []) =
          cosine_similarity [1] ((⟨["a"], [[1]], [⟨"f", 1, 0, 1, 1, 1⟩], none⟩ :
            SimpleVectorStore).embeddings.getD j []) ∧ j < i)) :=
  search_similar_ranking
    ⟨["a"], [[1]], [⟨"f", 1, 0, 1, 1, 1⟩], none⟩ [1] 1
    (by decide) (by decide) (by decide)

/-! ## Claim C3 -/

set_option maxRecDepth 8192

/-- Claim C3 (code bug): a question on which the embedder fails
internally gets the zero vector of dimension 384 as its embedding, yet
`ask_question` does NOT return a failure outcome: its guard tests
`len(question_embedding) == 0`, which a zero vector of positive
dimension never satisfies, so the engine searches the index with the
zero vector and returns a success outcome.  The spec (and the guard's
own error message) require a failure ("could not embed question"). -/
theorem zero_embedding_question_searches_anyway :
    (⟨384, fun _ => none⟩ : SimpleEmbeddingManager).get_single_embedding "q" =
      List.replicate 384 0 ∧
    (ask_question ⟨384, fun _ => none⟩
        ⟨["a"], [List.replicate 384 1], [⟨"f", 1, 0, 1, 1, 1⟩], none⟩
        (fun _ _ _ => .ok "ans") "q" "en").success = true ∧
    (ask_question ⟨384, fun _ => none⟩
        ⟨["a"], [List.replicate 384 1], [⟨"f", 1, 0, 1, 1, 1⟩], none⟩
        (fun _ _ _ => .ok "ans") "q" "en").sources ≠ [] := by
  have hsearch : SimpleVectorStore.search_similar
      ⟨["a"], [List.replicate 384 1], [⟨"f", 1, 0, 1, 1, 1⟩], none⟩
      ((⟨384, fun _ => none⟩ : SimpleEmbeddingManager).get_single_embedding "q") 3 =
      [⟨"a", ⟨"f", 1, 0, 1, 1, 1⟩,
        cosine_similarity
          ((⟨384, fun _ => none⟩ : SimpleEmbeddingManager).get_single_embedding "q")
          (List.replicate 384 1)⟩] := by
    simp [SimpleVectorStore.search_similar, List.enum, List.insertionSort,
      List.orderedInsert]
  have hlen : ((⟨384, fun _ => none⟩ :
      SimpleEmbeddingManager).get_single_embedding "q").length = 384 :=
    length_get_single_embedding _ _
  refine ⟨rfl, ?_, ?_⟩ <;>
  · simp only [ask_question]
    rw [hsearch]
    simp [hlen]

/-! ## Claim C2 -/

/-- A well-formed batch: every chunk dict has all three keys. -/
def goodBatch (chunks : List EncodedChunk) : Prop :=
  ∀ c ∈ chunks, c.content ≠ none ∧ c.embedding ≠ none ∧ c.metadata ≠ none

instance (chunks : List EncodedChunk) : Decidable (goodBatch chunks) := by
  unfold goodBatch; infer_instance

theorem addLoop_disk (chunks : List EncodedChunk) (s : SimpleVectorStore) :
    (SimpleVectorStore.addLoop s chunks).1.disk = s.disk := by
  induction chunks generalizing s with
  | nil => rfl
  | cons c rest ih =>
    unfold SimpleVectorStore.addLoop
    cases c.content with
    | none => rfl
    | some content =>
      cases c.embedding with
      | none => rfl
      | some emb =>
        cases c.metadata with
        | none => rfl
        | some md => exact ih _

theorem addLoop_prefix (chunks : List EncodedChunk) (s : SimpleVectorStore) :
    s.documents <+: (SimpleVectorStore.addLoop s chunks).1.documents ∧
    s.embeddings <+: (SimpleVectorStore.addLoop s chunks).1.embeddings ∧
    s.metadata <+: (SimpleVectorStore.addLoop s chunks).1.metadata := by
  induction chunks generalizing s with
  | nil => exact ⟨List.prefix_rfl, List.prefix_rfl, List.prefix_rfl⟩
  | cons c rest ih =>
    unfold SimpleVectorStore.addLoop
    cases c.content with
    | none => exact ⟨List.prefix_rfl, List.prefix_rfl, List.prefix_rfl⟩
    | some content =>
      cases c.embedding with
      | none => exact ⟨(List.prefix_append _ _), List.prefix_rfl, List.prefix_rfl⟩
      | some emb =>
        cases c.metadata with
        | none => exact ⟨(List.prefix_append _ _), (List.prefix_append _ _), List.prefix_rfl⟩
        | some md =>
          obtain ⟨h1, h2, h3⟩ := ih { s with
            documents := s.documents ++ [content]
            embeddings := s.embeddings ++ [emb]
            metadata := s.metadata ++ [md] }
          exact ⟨(List.prefix_append _ _).trans h1,
            (List.prefix_append _ _).trans h2,
            (List.prefix_append _ _).trans h3⟩

theorem addLoop_true_iff (chunks : List EncodedChunk) (s : SimpleVectorStore) :
    (SimpleVectorStore.addLoop s chunks).2 = true ↔ goodBatch chunks := by
  induction chunks generalizing s with
  | nil => simp [SimpleVectorStore.addLoop, goodBatch]
  | cons c rest ih =>
    unfold SimpleVectorStore.addLoop
    cases hc : c.content with
    | none => simp [goodBatch, hc]
    | some content =>
      cases he : c.embedding with
      | none => simp [goodBatch, he]
      | some emb =>
        cases hm : c.metadata with
        | none => simp [goodBatch, hm]
        | some md =>
          rw [ih]
          unfold goodBatch
          constructor
          · intro h x hx
            rcases List.mem_cons.mp hx with rfl | hx'
            · exact ⟨by simp [hc], by simp [he], by simp [hm]⟩
            · exact h x hx'
          · intro h x hx
            exact h x (List.mem_cons_of_mem c hx)

theorem addLoop_goodBatch_eq (chunks : List EncodedChunk)
    (s : SimpleVectorStore) (h : goodBatch chunks) :
    (SimpleVectorStore.addLoop s chunks).1 =
      { documents := s.documents ++ chunks.filterMap (fun c => c.content)
        embeddings := s.embeddings ++ chunks.filterMap (fun c => c.embedding)
        metadata := s.metadata ++ chunks.filterMap (fun c => c.metadata)
        disk := s.disk } := by
  induction chunks generalizing s with
  | nil => simp [SimpleVectorStore.addLoop]
  | cons c rest ih =>
    obtain ⟨hc, he, hm⟩ := h c (by simp)
    obtain ⟨content, hc⟩ := Option.ne_none_iff_exists'.mp hc
    obtain ⟨emb, he⟩ := Option.ne_none_iff_exists'.mp he
    obtain ⟨md, hm⟩ := Option.ne_none_iff_exists'.mp hm
    unfold SimpleVectorStore.addLoop
    rw [hc, he, hm]
    rw [ih _ (fun x hx => h x (List.mem_cons_of_mem c hx))]
    simp [List.filterMap_cons, hc, he, hm]

/-- Counterexample to claim C2: a batch whose second chunk dict lacks
the `embedding` and `metadata` keys.  `add_documents` reports failure,
yet the store is not the prior (empty) state: both contents and the
first chunk's embedding and metadata remain visible. -/
theorem add_documents_counterexample :
    (SimpleVectorStore.add_documents true ⟨[], [], [], none⟩
        [⟨some "c1", some [1], some ⟨"f", 1, 0, 1, 2, 1⟩⟩,
         ⟨some "c2", none, none⟩]).2 = false ∧
    (SimpleVectorStore.add_documents true ⟨[], [], [], none⟩
        [⟨some "c1", some [1], some ⟨"f", 1, 0, 1, 2, 1⟩⟩,
         ⟨some "c2", none, none⟩]).1 ≠ ⟨[], [], [], none⟩ ∧
    (SimpleVectorStore.add_documents true ⟨[], [], [], none⟩
        [⟨some "c1", some [1], some ⟨"f", 1, 0, 1, 2, 1⟩⟩,
         ⟨some "c2", none, none⟩]).1.documents = ["c1", "c2"] :=
  ⟨by decide, by decide, by decide⟩

/-- Claim C2, amended: `add_documents` succeeds exactly when every
chunk dict carries all three keys; on success all entries are appended
to the in-memory lists and the batch is persisted only when the disk
write succeeds (a failed write is swallowed and success is still
reported); on failure the appends performed before the faulty chunk
remain visible (the prior lists survive only as prefixes — there is no
rollback), and nothing is persisted. -/
theorem add_documents_amended (saveOk : Bool) (s : SimpleVectorStore)
    (chunks : List EncodedChunk) :
    ((SimpleVectorStore.add_documents saveOk s chunks).2 = true ↔
      goodBatch chunks) ∧
    (goodBatch chunks →
      (SimpleVectorStore.add_documents saveOk s chunks).1 =
        { documents := s.documents ++ chunks.filterMap (fun c => c.content)
          embeddings := s.embeddings ++ chunks.filterMap (fun c => c.embedding)
          metadata := s.metadata ++ chunks.filterMap (fun c => c.metadata)
          disk := if saveOk then
              some (s.documents ++ chunks.filterMap (fun c => c.content),
                s.embeddings ++ chunks.filterMap (fun c => c.embedding),
                s.metadata ++ chunks.filterMap (fun c => c.metadata))
            else s.disk }) ∧
    (s.documents <+: (SimpleVectorStore.add_documents saveOk s chunks).1.documents ∧
      s.embeddings <+: (SimpleVectorStore.add_documents saveOk s chunks).1.embeddings ∧
      s.metadata <+: (SimpleVectorStore.add_documents saveOk s chunks).1.metadata) ∧
    ((SimpleVectorStore.add_documents saveOk s chunks).2 = false →
      (SimpleVectorStore.add_documents saveOk s chunks).1.disk = s.disk) := by
  unfold SimpleVectorStore.add_documents
  cases hloop : SimpleVectorStore.addLoop s chunks with
  | mk s' ok =>
    have hiff := addLoop_true_iff chunks s
    have hpre := addLoop_prefix chunks s
    have hdisk := addLoop_disk chunks s
    rw [hloop] at hiff hpre hdisk
    cases ok with
    | true =>
      simp only
      refine ⟨by simpa using hiff, fun hgb => ?_, ?_, by simp⟩
      · have := addLoop_goodBatch_eq chunks s hgb
        rw [hloop] at this
        simp only at this
        subst this
        unfold SimpleVectorStore._save_data
        cases saveOk <;> simp
      · unfold SimpleVectorStore._save_data
        cases saveOk <;> simpa using hpre
    | false =>
      simp only
      refine ⟨by simpa using hiff, fun hgb => ?_, hpre, fun _ => hdisk⟩
      exact absurd (hiff.mpr hgb) (by simp)

/-- Witness for C2 (amended): one well-formed chunk added with a
failing disk write — success is reported, the entry is visible in
memory, and the disk is unchanged. -/
theorem add_documents_amended_witness :
    (SimpleVectorStore.add_documents false ⟨[], [], [], none⟩
        [⟨some "c1", some [1], some ⟨"f", 1, 0, 1, 2, 1⟩⟩]).1 =
      { documents := [] ++ [⟨some "c1", some [1],
            some ⟨"f", 1, 0, 1, 2, 1⟩⟩].filterMap
            (fun c => (c : EncodedChunk).content)
        embeddings := [] ++ [⟨some "c1", some [1],
            some ⟨"f", 1, 0, 1, 2, 1⟩⟩].filterMap
            (fun c => (c : EncodedChunk).embedding)
        metadata := [] ++ [⟨some "c1", some [1],
            some ⟨"f", 1, 0, 1, 2, 1⟩⟩].filterMap
            (fun c => (c : EncodedChunk).metadata)
        disk := if false then
            some ([] ++ [⟨some "c1", some [1],
                some ⟨"f", 1, 0, 1, 2, 1⟩⟩].filterMap
                (fun c => (c : EncodedChunk).content),
              [] ++ [⟨some "c1", some [1],
                some ⟨"f", 1, 0, 1, 2, 1⟩⟩].filterMap
                (fun c => (c : EncodedChunk).embedding),
              [] ++ [⟨some "c1", some [1],
                some ⟨"f", 1, 0, 1, 2, 1⟩⟩].filterMap
                (fun c => (c : EncodedChunk).metadata))
          else none } :=
  (add_documents_amended false ⟨[], [], [], none⟩
    [⟨some "c1", some [1], some ⟨"f", 1, 0, 1, 2, 1⟩⟩]).2.1 (by decide)

/-! ## Claim C9 -/

/-- The components of every embedding the manager produces are
non-negative (hash character codes divided by 255, or zeros). -/
theorem get_single_embedding_nonneg (m : SimpleEmbeddingManager)
    (t : String) : ∀ x ∈ m.get_single_embedding t, (0 : ℚ) ≤ x := by
  unfold SimpleEmbeddingManager.get_single_embedding
  cases m.md5 t with
  | some h =>
    intro x hx
    simp only [hashVector, List.mem_map] at hx
    rcases hx with ⟨i, _, rfl⟩
    split
    · positivity
    · split
      · positivity
      · exact le_refl 0
  | none =>
    intro x hx
    rw [List.eq_of_mem_replicate hx]

/-- Cosine similarity of two componentwise non-negative vectors lies
in `[0, 1]`. -/
theorem cosine_similarity_mem_unit (v w : Vec)
    (hv : ∀ x ∈ v, (0 : ℚ) ≤ x) (hw : ∀ x ∈ w, (0 : ℚ) ≤ x) :
    0 ≤ cosine_similarity v w ∧ cosine_similarity v w ≤ 1 := by
  unfold cosine_similarity
  split
  · exact ⟨le_refl 0, zero_le_one⟩
  · split
    · exact ⟨le_refl 0, zero_le_one⟩
    · rename_i hlen hz
      push_neg at hz
      have hnv : (0 : ℝ) < (normSq v : ℝ) := by
        exact_mod_cast lt_of_le_of_ne (normSq_nonneg v) (Ne.symm hz.1)
      have hnw : (0 : ℝ) < (normSq w : ℝ) := by
        exact_mod_cast lt_of_le_of_ne (normSq_nonneg w) (Ne.symm hz.2)
      have hdot : (0 : ℝ) ≤ (dot v w : ℝ) := by
        exact_mod_cast dot_nonneg v w hv hw
      have hsq : (0 : ℝ) < Real.sqrt (normSq v) * Real.sqrt (normSq w) :=
        mul_pos (Real.sqrt_pos.mpr hnv) (Real.sqrt_pos.mpr hnw)
      refine ⟨div_nonneg hdot hsq.le, ?_⟩
      rw [div_le_one hsq]
      have hcs : (dot v w : ℝ) ^ 2 ≤ (normSq v : ℝ) * (normSq w : ℝ) := by
        exact_mod_cast dot_sq_le_normSq_mul_normSq v w
      have hle : (dot v w : ℝ) ≤ Real.sqrt ((normSq v : ℝ) * (normSq w : ℝ)) :=
        (Real.le_sqrt hdot (mul_nonneg hnv.le hnw.le)).mpr hcs
      rwa [Real.sqrt_mul hnv.le] at hle

/-- Every similarity score returned by `search_similar` is the cosine
similarity of the query with some stored embedding. -/
theorem search_similar_score_mem (s : SimpleVectorStore) (q : Vec) (k : ℕ)
    (r : SearchResult) (hr : r ∈ s.search_similar q k) :
    ∃ e ∈ s.embeddings, r.similarity_score = cosine_similarity q e := by
  simp only [SimpleVectorStore.search_similar] at hr
  split at hr
  · exact absurd hr (by simp)
  · split at hr
    · rcases List.mem_map.mp hr with ⟨p, hp, rfl⟩
      have hp' : p ∈ List.insertionSort tupleGE (s.embeddings.enum.map
          (fun ie => (cosine_similarity q ie.2, ie.1))) :=
        List.mem_of_mem_take hp
      have hmem : p ∈ s.embeddings.enum.map
          (fun ie => (cosine_similarity q ie.2, ie.1)) :=
        (List.perm_insertionSort tupleGE _).mem_iff.mp hp'
      obtain ⟨hlt, hpe⟩ := mem_similarities s q p hmem
      refine ⟨s.embeddings.getD p.2 [], ?_, ?_⟩
      · rw [List.getD_eq_getElem _ _ hlt]
        exact List.getElem_mem hlt
      · exact congrArg Prod.fst hpe
    · exact absurd hr (by simp)

/-- The arithmetic mean of a non-empty list of reals in `[0, 1]` lies
in `[0, 1]`. -/
theorem mean_mem_unit (l : List ℝ) (hne : l ≠ [])
    (h : ∀ x ∈ l, 0 ≤ x ∧ x ≤ 1) :
    0 ≤ l.sum / (l.length : ℝ) ∧ l.sum / (l.length : ℝ) ≤ 1 := by
  have hlen : (0 : ℝ) < (l.length : ℝ) := by
    exact_mod_cast List.length_pos.mpr hne
  constructor
  · exact div_nonneg (List.sum_nonneg (fun x hx => (h x hx).1)) hlen.le
  · rw [div_le_one hlen]
    calc l.sum ≤ l.length • (1 : ℝ) :=
          List.sum_le_card_nsmul l 1 (fun x hx => (h x hx).2)
      _ = (l.length : ℝ) := by simp

/-- Evaluation of `ask_question` on the main path: embedding of
positive length, non-empty search results, generator succeeds. -/
theorem ask_question_main_eq (m : SimpleEmbeddingManager)
    (s : SimpleVectorStore)
    (gen : String → String → String → Except String String)
    (question language : String) (r : SearchResult) (rs : List SearchResult)
    (ans : String)
    (h0 : (m.get_single_embedding question).length ≠ 0)
    (hres : s.search_similar (m.get_single_embedding question) 3 = r :: rs)
    (hgen : gen question
      (String.intercalate "\n\n" (List.map (fun x => x.content) (r :: rs)))
      language = .ok ans) :
    ask_question m s gen question language =
      { success := true
        answer := ans
        sources := (r :: rs).map (fun res =>
          { file_name := res.metadata.file_name
            page_number := res.metadata.page_number
            similarity_score := res.similarity_score })
        confidence := ((r :: rs).map (fun x => x.similarity_score)).sum /
          (((r :: rs).length : ℕ) : ℝ)
        error := none
        context_length := some (String.intercalate "\n\n"
          (List.map (fun x => x.content) (r :: rs))).length
        sources_count := some ((r :: rs).map (fun res =>
          ({ file_name := res.metadata.file_name
             page_number := res.metadata.page_number
             similarity_score := res.similarity_score } : Source))).length } := by
  simp only [ask_question]
  rw [if_neg h0, hres]
  dsimp only
  rw [hgen]

/-- Claim C9: for every successful query with a non-empty result set,
the returned confidence equals the arithmetic mean of the similarity
scores of the returned sources, and (because the stored hash-derived
embeddings and the query embedding are componentwise non-negative) it
lies in `[0, 1]`. -/
theorem ask_question_confidence (m : SimpleEmbeddingManager)
    (s : SimpleVectorStore)
    (gen : String → String → String → Except String String)
    (question language : String)
    (hnn : ∀ e ∈ s.embeddings, ∀ x ∈ e, (0 : ℚ) ≤ x)
    (hsucc : (ask_question m s gen question language).success = true)
    (hne : (ask_question m s gen question language).sources ≠ []) :
    (ask_question m s gen question language).confidence =
      ((ask_question m s gen question language).sources.map
        (fun src => src.similarity_score)).sum /
        (((ask_question m s gen question language).sources.length : ℕ) : ℝ) ∧
    0 ≤ (ask_question m s gen question language).confidence ∧
    (ask_question m s gen question language).confidence ≤ 1 := by
  by_cases h0 : (m.get_single_embedding question).length = 0
  · simp only [ask_question, if_pos h0] at hsucc
    exact absurd hsucc (by simp)
  · cases hres : s.search_similar (m.get_single_embedding question) 3 with
    | nil =>
      have heq : ask_question m s gen question language =
          { success := true
            answer := insufficientInfoAnswer
            sources := []
            confidence := 0 } := by
        simp only [ask_question]
        rw [if_neg h0, hres]
      rw [heq] at hne
      exact absurd rfl hne
    | cons r rs =>
      cases hgen : gen question
          (String.intercalate "\n\n" (List.map (fun x => x.content) (r :: rs)))
          language with
      | error e =>
        have heq : ask_question m s gen question language =
            { success := false
              answer := errorFallbackAnswer
              sources := []
              confidence := 0
              error := some e } := by
          simp only [ask_question]
          rw [if_neg h0, hres]
          dsimp only
          rw [hgen]
        rw [heq] at hsucc
        simp at hsucc
      | ok ans =>
        have heq := ask_question_main_eq m s gen question language r rs ans
          h0 hres hgen
        rw [heq]
        dsimp only
        have hscores : ∀ x ∈ (r :: rs).map (fun res => res.similarity_score),
            0 ≤ x ∧ x ≤ 1 := by
          intro x hx
          rcases List.mem_map.mp hx with ⟨res, hresmem, rfl⟩
          have hres' : res ∈ s.search_similar (m.get_single_embedding question) 3 := by
            rw [hres]
            exact hresmem
          obtain ⟨e, he, hscore⟩ :=
            search_similar_score_mem s (m.get_single_embedding question) 3 res hres'
          rw [hscore]
          exact cosine_similarity_mem_unit _ e
            (get_single_embedding_nonneg m question) (hnn e he)
        refine ⟨?_, ?_⟩
        · rw [List.map_map]
          simp only [Function.comp_def, List.length_map]
        · have hmean := mean_mem_unit ((r :: rs).map (fun res => res.similarity_score))
            (by simp) hscores
          rw [List.length_map] at hmean
          exact hmean

/-- Witness for C9 on a concrete one-entry store and hash oracle. -/
theorem ask_question_confidence_witness :
    (ask_question ⟨1, fun _ => some [51]⟩
        ⟨["a"], [[1]], [⟨"f", 1, 0, 1, 1, 1⟩], none⟩
        (fun _ _ _ => .ok "ans") "q" "en").confidence =
      ((ask_question ⟨1, fun _ => some [51]⟩
          ⟨["a"], [[1]], [⟨"f", 1, 0, 1, 1, 1⟩], none⟩
          (fun _ _ _ => .ok "ans") "q" "en").sources.map
        (fun src => src.similarity_score)).sum /
        (((ask_question ⟨1, fun _ => some [51]⟩
          ⟨["a"], [[1]], [⟨"f", 1, 0, 1, 1, 1⟩], none⟩
          (fun _ _ _ => .ok "ans") "q" "en").sources.length : ℕ) : ℝ) ∧
    0 ≤ (ask_question ⟨1, fun _ => some [51]⟩
        ⟨["a"], [[1]], [⟨"f", 1, 0, 1, 1, 1⟩], none⟩
        (fun _ _ _ => .ok "ans") "q" "en").confidence ∧
    (ask_question ⟨1, fun _ => some [51]⟩
        ⟨["a"], [[1]], [⟨"f", 1, 0, 1, 1, 1⟩], none⟩
        (fun _ _ _ => .ok "ans") "q" "en").confidence ≤ 1 := by
  have hsearch : SimpleVectorStore.search_similar
      ⟨["a"], [[1]], [⟨"f", 1, 0, 1, 1, 1⟩], none⟩
      ((⟨1, fun _ => some [51]⟩ :
        SimpleEmbeddingManager).get_single_embedding "q") 3 =
      [⟨"a", ⟨"f", 1, 0, 1, 1, 1⟩,
        cosine_similarity
          ((⟨1, fun _ => some [51]⟩ :
            SimpleEmbeddingManager).get_single_embedding "q") [1]⟩] := by
    simp [SimpleVectorStore.search_similar, List.enum, List.insertionSort,
      List.orderedInsert]
  have hlen : ((⟨1, fun _ => some [51]⟩ :
      SimpleEmbeddingManager).get_single_embedding "q").length = 1 :=
    length_get_single_embedding _ _
  refine ask_question_confidence ⟨1, fun _ => some [51]⟩
    ⟨["a"], [[1]], [⟨"f", 1, 0, 1, 1, 1⟩], none⟩
    (fun _ _ _ => .ok "ans") "q" "en" (by decide) ?_ ?_ <;>
  · simp only [ask_question]
    rw [hsearch]
    simp [hlen]

/-- Witness for C4 (amended) at a one-chunk page. -/
theorem chunk_numbering_amended_witness :
    (⟨"a", ⟨"f", 1, 0, 1, 1, 1⟩⟩ : Chunk).metadata.total_chunks =
        ((fun (_ : String) => ["a"]) "t" : List String).length ∧
      (⟨"a", ⟨"f", 1, 0, 1, 1, 1⟩⟩ : Chunk).metadata.chunk_index <
        ((fun (_ : String) => ["a"]) "t" : List String).length ∧
      (⟨"a", ⟨"f", 1, 0, 1, 1, 1⟩⟩ : Chunk).content =
        pyStrip (((fun (_ : String) => ["a"]) "t" : List String).getD
          (⟨"a", ⟨"f", 1, 0, 1, 1, 1⟩⟩ : Chunk).metadata.chunk_index "") ∧
      (⟨"a", ⟨"f", 1, 0, 1, 1, 1⟩⟩ : Chunk).content ≠ "" :=
  (chunk_numbering_amended (fun _ => ["a"]) String.length ⟨"f", 1, "t"⟩).1
    ⟨"a", ⟨"f", 1, 0, 1, 1, 1⟩⟩ (by decide)

end Giki
